import Mathlib

/-!
# fast-fs-hash — verification of the path codec, cache format and engine plumbing

A shallow embedding of the core pure logic of the `fast-fs-hash` repository:

* the NUL-separated path codec (`encodeFilePaths` / `decodeFilePaths` from
  `functions.ts`) and the native engine's `PathIndex`;
* the cache binary format serializers (`serializePaths` / `serializeCache`
  from the format module) and the `validate` partition / `write` option
  checks of `FileHashCache`;
* the thread-count computation of the native `HashFilesWorker::run`;
* the streaming-hasher drivers (native `XXHash128Wrap` and the WASM glue).

Paths and buffers are modelled as `List Nat` of byte values; a JavaScript
string is identified with its UTF-8 byte sequence (UTF-8 is injective on
Unicode scalar values, and the byte `0` occurs in the encoding exactly when
the string contains the character `"\0"`).  JavaScript `number` values that
hold `stat` fields are modelled as `Int` (exact integral doubles); the
IEEE-754 byte encoding of an `f64` field is abstracted as an opaque 8-byte
block where only its length matters.
-/

namespace FastFsHash

/-! ## Path codec (`functions.ts`)

`decodeFilePaths` scans byte-for-byte; every `0` byte terminates a segment
(empty runs give empty strings) and a final run without a terminating `0`
is still pushed as a last segment.  The loop state is the reversed
accumulator of the current run, mirroring `segStart`/`i` of the source. -/

/-- Scanning loop of `decodeFilePaths`: `acc` is the current (reversed) run.
On end of input the pending run is pushed only when non-empty
(`segStart < len` in the source). -/
def decodeLoop : List Nat → List Nat → List (List Nat)
  | [], acc => if acc.isEmpty then [] else [acc.reverse]
  | b :: rest, acc =>
    if b = 0 then acc.reverse :: decodeLoop rest [] else decodeLoop rest (b :: acc)

/-- Function `decodeFilePaths` from `functions.ts`: decode a null-separated path
buffer into the list of path byte-strings. -/
def decodeFilePaths (buf : List Nat) : List (List Nat) :=
  decodeLoop buf []

/-- Pass 1 of `encodeFilePaths`: index of the first non-empty path that
contains a `0` byte (`firstNullAt` in the source, `none` for `-1`). -/
def firstNullIdx (paths : List (List Nat)) : Option Nat :=
  (paths.enum.find? fun ip => !ip.2.isEmpty && ip.2.contains 0).map (·.1)

/-- Pass 2 of `encodeFilePaths`: the bytes written for path `p` at index
`i` — the path's UTF-8 bytes (under the source's `firstNullAt` test)
followed by the `\0` separator. -/
def encodeSeg (fna : Option Nat) (i : Nat) (p : List Nat) : List Nat :=
  if !p.isEmpty && (fna.isNone || decide (i < fna.getD 0) || !p.contains 0)
  then p ++ [0] else [0]

/-- Function `encodeFilePaths` from `functions.ts`: encode a list of paths into a
null-separated buffer.  Empty input yields the empty buffer. -/
def encodeFilePaths (paths : List (List Nat)) : List Nat :=
  (paths.enum.map fun ip => encodeSeg (firstNullIdx paths) ip.1 ip.2).flatten

/-! ## Native `PathIndex` (`PathIndex.h`)

The native engine splits the same buffer with `memchr`: only runs that are
terminated by a `0` byte become segments; a final run without a trailing
`0` is skipped (so is the whole buffer when it contains no `0` at all). -/

/-- The `PathIndex` segment extraction: like `decodeLoop` but a pending run at
end of input is dropped, never pushed. -/
def pathIndexLoop : List Nat → List Nat → List (List Nat)
  | [], _ => []
  | b :: rest, acc =>
    if b = 0 then acc.reverse :: pathIndexLoop rest [] else pathIndexLoop rest (b :: acc)

/-- Sequence of paths the native engine sees for a buffer (the strings the
`PathIndex` segment pointers denote, in order). -/
def pathIndex (buf : List Nat) : List (List Nat) :=
  pathIndexLoop buf []

/-- The final non-terminated run of a buffer (with the pending accumulator),
`none` when the buffer ends at a segment boundary. -/
def trailingSeg : List Nat → List Nat → Option (List Nat)
  | [], acc => if acc.isEmpty then none else some acc.reverse
  | b :: rest, acc =>
    if b = 0 then trailingSeg rest [] else trailingSeg rest (b :: acc)

/-! ### Codec lemmas -/

theorem decodeLoop_eq_pathIndexLoop_append (buf : List Nat) :
    ∀ acc, decodeLoop buf acc = pathIndexLoop buf acc ++ (trailingSeg buf acc).toList := by
  induction buf with
  | nil =>
    intro acc
    by_cases h : acc.isEmpty <;> simp [decodeLoop, pathIndexLoop, trailingSeg, h]
  | cons b rest ih =>
    intro acc
    by_cases h : b = 0 <;> simp [decodeLoop, pathIndexLoop, trailingSeg, h, ih]

/-- On every buffer, `decodeFilePaths` is the engine's `pathIndex` plus the
(at most one) final non-terminated run. -/
theorem decodeFilePaths_eq_pathIndex_append (buf : List Nat) :
    decodeFilePaths buf = pathIndex buf ++ (trailingSeg buf []).toList :=
  decodeLoop_eq_pathIndexLoop_append buf []

theorem trailingSeg_none_iff (buf : List Nat) :
    ∀ acc, trailingSeg buf acc = none ↔ (buf = [] ∧ acc = []) ∨ buf.getLast? = some 0 := by
  induction buf with
  | nil =>
    intro acc
    by_cases h : acc.isEmpty <;>
      simp_all [trailingSeg, List.isEmpty_iff, List.getLast?]
  | cons b rest ih =>
    intro acc
    by_cases h : b = 0 <;>
      cases rest <;>
        simp_all [trailingSeg, List.getLast?_cons_cons]

/-! ### Round-trip: `decode ∘ encode` -/

/-- The per-path bytes `encodeFilePaths` writes, with the `firstNullAt`
bookkeeping resolved: non-empty NUL-free paths are written verbatim, all
others as a bare separator. -/
def encSimple (p : List Nat) : List Nat :=
  if !p.isEmpty && !p.contains 0 then p ++ [0] else [0]

theorem mem_enumFrom_le {l : List (List Nat)} :
    ∀ {n i : Nat} {p : List Nat}, (i, p) ∈ l.enumFrom n → n ≤ i := by
  induction l with
  | nil => intro n i p h; simp [List.enumFrom] at h
  | cons a rest ih =>
    intro n i p h
    simp only [List.enumFrom, List.mem_cons] at h
    rcases h with h | h
    · simp [Prod.ext_iff] at h; omega
    · have := ih (n := n + 1) h; omega

theorem find_enumFrom_le {q : Nat × List Nat → Bool} {l : List (List Nat)} :
    ∀ {n i : Nat} {p : List Nat}, (i, p) ∈ l.enumFrom n → q (i, p) = true →
      ∃ k x, (l.enumFrom n).find? q = some (k, x) ∧ k ≤ i := by
  induction l with
  | nil => intro n i p h; simp [List.enumFrom] at h
  | cons a rest ih =>
    intro n i p hm hq
    simp only [List.enumFrom, List.mem_cons] at hm
    by_cases ha : q (n, a) = true
    · refine ⟨n, a, by simp [List.find?, ha], ?_⟩
      rcases hm with hm | hm
      · simp [Prod.ext_iff] at hm; omega
      · have := mem_enumFrom_le (n := n + 1) hm; omega
    · rcases hm with hm | hm
      · rw [← hm] at ha; exact absurd hq ha
      · obtain ⟨k, x, hfind, hk⟩ := ih (n := n + 1) hm hq
        exact ⟨k, x, by simp [List.find?, ha, hfind], hk⟩

theorem encodeSeg_eq_encSimple (paths : List (List Nat)) :
    ∀ ip ∈ paths.enum, encodeSeg (firstNullIdx paths) ip.1 ip.2 = encSimple ip.2 := by
  rintro ⟨i, p⟩ hm
  by_cases hemp : p.isEmpty
  · simp [encodeSeg, encSimple, hemp]
  · by_cases hnul : p.contains 0
    · obtain ⟨k, x, hfind, hk⟩ :=
        find_enumFrom_le (q := fun ip => !ip.2.isEmpty && ip.2.contains 0)
          (n := 0) (i := i) (p := p) hm (by rw [Bool.and_eq_true, hnul]; simp [hemp])
      have hf : firstNullIdx paths = some k := by
        unfold firstNullIdx
        rw [show paths.enum.find? (fun ip => !ip.2.isEmpty && ip.2.contains 0)
              = some (k, x) from hfind]
        rfl
      have hmem : (0 : Nat) ∈ p := by simpa using hnul
      simp [encodeSeg, encSimple, hemp, hmem, hf, Nat.not_lt.2 hk]
    · have hmem : (0 : Nat) ∉ p := by simpa using hnul
      simp [encodeSeg, encSimple, hemp, hmem]

theorem encodeFilePaths_eq_flatten_encSimple (paths : List (List Nat)) :
    encodeFilePaths paths = (paths.map encSimple).flatten := by
  unfold encodeFilePaths
  congr 1
  calc paths.enum.map (fun ip => encodeSeg (firstNullIdx paths) ip.1 ip.2)
      = paths.enum.map (fun ip => encSimple ip.2) :=
        List.map_congr_left (encodeSeg_eq_encSimple paths)
    _ = (paths.enum.map Prod.snd).map encSimple := by rw [List.map_map]; rfl
    _ = paths.map encSimple := by rw [List.enum_map_snd]

theorem decodeLoop_append_zero (s : List Nat) (hs : ∀ b ∈ s, b ≠ 0) :
    ∀ rest acc, decodeLoop (s ++ 0 :: rest) acc = (acc.reverse ++ s) :: decodeLoop rest [] := by
  induction s with
  | nil => intro rest acc; simp [decodeLoop]
  | cons b bs ih =>
    intro rest acc
    have hb : b ≠ 0 := hs b (by simp)
    have hbs : ∀ x ∈ bs, x ≠ 0 := fun x hx => hs x (by simp [hx])
    simp [decodeLoop, hb, ih hbs rest (b :: acc)]

/-- Claim C5: for every path list, decoding the encoded buffer returns the
paths with every path containing a `0` byte replaced by the empty path,
and all other paths (including empty ones) preserved in order. -/
theorem claim_C5_decode_encode_roundtrip (paths : List (List Nat)) :
    decodeFilePaths (encodeFilePaths paths) =
      paths.map (fun p => if p.contains 0 then [] else p) := by
  rw [encodeFilePaths_eq_flatten_encSimple]
  induction paths with
  | nil => rfl
  | cons p rest ih =>
    have step : ∃ s, encSimple p = s ++ [0] ∧ (∀ b ∈ s, b ≠ 0) ∧
        s = (if p.contains 0 then [] else p) := by
      by_cases hemp : p.isEmpty
      · refine ⟨[], by simp [encSimple, hemp], by simp, ?_⟩
        have : p = [] := List.isEmpty_iff.mp hemp
        simp [this]
      · by_cases hnul : p.contains 0
        · have hmem : (0 : Nat) ∈ p := by simpa using hnul
          exact ⟨[], by simp [encSimple, hmem], by simp, by simp [hmem]⟩
        · have hmem : (0 : Nat) ∉ p := by simpa using hnul
          refine ⟨p, by simp [encSimple, hemp, hmem], ?_, by simp [hmem]⟩
          intro b hb hb0
          exact hmem (hb0 ▸ hb)
    obtain ⟨s, hse, hs0, hsv⟩ := step
    unfold decodeFilePaths at ih ⊢
    simp only [List.map_cons, List.flatten_cons, hse, List.append_assoc, List.cons_append,
      List.nil_append]
    rw [decodeLoop_append_zero s hs0]
    simp [ih, hsv]

/-! ### Claim C2: decode vs. the native engine's path indexing -/

/-- Claim C2 counterexample: the buffer `[97]` (`"a"` with no trailing NUL)
is decoded by `decodeFilePaths` as one path, but the native `PathIndex`
yields no path at all, so the two consumers disagree on both the sequence
and the count. -/
theorem claim_C2_counterexample :
    decodeFilePaths [97] = [[97]] ∧ pathIndex [97] = [] := by
  constructor <;> rfl

/-- Claim C2 (amended): `decodeFilePaths` yields the final non-terminated
run as one extra last path, while the native engine's `PathIndex`
deliberately skips it; on every buffer, `decodeFilePaths` equals
`pathIndex` followed by that (at most one) trailing run, and the trailing
run is absent exactly when the buffer is empty or ends with a `0` byte —
so the two consumers agree precisely on those buffers. -/
theorem claim_C2_decode_vs_pathIndex (buf : List Nat) :
    decodeFilePaths buf = pathIndex buf ++ (trailingSeg buf []).toList ∧
      (trailingSeg buf [] = none ↔ buf = [] ∨ buf.getLast? = some 0) := by
  refine ⟨decodeFilePaths_eq_pathIndex_append buf, ?_⟩
  rw [trailingSeg_none_iff buf []]
  simp

/-! ## Cache binary format (format module, `serializePaths` / `serializeCache`)

`serializePaths` writes each path's UTF-8 bytes verbatim followed by a
`\0` terminator — internal `0` bytes of a path are NOT escaped or
replaced.  `serializeCache` lays out
`header(64) ++ entries(40·n) ++ paths ++ rawBlob ++ gzipBlob` with
`entry_count = paths.length` at header bytes 8..11 (u32 LE).  Writing an
entry's stat fields goes through `DataView.setFloat64`, whose `ToNumber`
coercion throws `TypeError` on a BigInt value — this error path matters,
because `validate` stores the BigInt `0n` in the entries of stat-failed
paths; the checked serialization model below (after the `validate`
section) captures it. -/

/-- Function `serializePaths` from the format module: every path is written as its
bytes followed by a single `0`. -/
def serializePaths (paths : List (List Nat)) : List Nat :=
  (paths.map fun p => p ++ [0]).flatten

/-- Little-endian 4-byte encoding of a `u32`. -/
def u32le (v : Nat) : List Nat :=
  [v % 256, v / 256 % 256, v / 65536 % 256, v / 16777216 % 256]

/-- Little-endian 2-byte encoding of a `u16`. -/
def u16le (v : Nat) : List Nat :=
  [v % 256, v / 256 % 256]

/-- Decode a `u32` stored little-endian at the head of a byte list. -/
def readU32le (bytes : List Nat) : Nat :=
  match bytes with
  | b0 :: b1 :: b2 :: b3 :: _ => b0 + b1 * 256 + b2 * 65536 + b3 * 16777216
  | _ => 0

/-- Binary format magic `0x06485346` (bytes `F`,`S`,`H`,`0x06`). -/
def MAGIC : Nat := 0x06485346

/-- Number of NUL-terminated segments in a paths section: one per `0` byte. -/
def nulSegmentCount (bytes : List Nat) : Nat :=
  bytes.countP (· = 0)

/-! ## `FileHashCache.validate` — reuse partition

The format module parses cache entries as records with fields
`ino`, `mtimeMs`, `size` (JavaScript numbers) and `hash`, and `statAll`
produces records with fields `ino`, `mtimeMs`, `size`.  The comparison in
`validate`, however, reads the properties `mtimeNs` and `ctimeNs`, which
exist on neither record: a JavaScript property access on a missing key
yields `undefined`, and `undefined === undefined` is `true`.  Property
access is therefore modelled by name so that the dynamic semantics of the
source line is captured exactly. -/

/-- A JavaScript value read off an entry/stat record: a number, or
`undefined` for a property the record does not have.  The `stat` numbers
are exact integral doubles, modelled as `Int`. -/
inductive JSVal where
  | num (v : Int)
  | undefined
  deriving DecidableEq

/-- JavaScript strict equality `===` restricted to the values compared in
`validate` (numbers and `undefined`; the compared stat numbers are never
`NaN`). -/
def jsStrictEq : JSVal → JSVal → Bool
  | .num a, .num b => a == b
  | .undefined, .undefined => true
  | _, _ => false

/-- A cache entry as parsed from disk by `parseEntriesArray`. -/
structure CEntry where
  ino : Int
  mtimeMs : Int
  size : Int
  hash : List Nat
  deriving DecidableEq

/-- A `stat` result as recorded by `statAll`. -/
structure SResult where
  ino : Int
  mtimeMs : Int
  size : Int
  deriving DecidableEq

/-- JavaScript property access on a parsed cache entry: only `ino`,
`mtimeMs` and `size` are numeric fields; any other name is `undefined`. -/
def ceGet (e : CEntry) (field : String) : JSVal :=
  if field = "ino" then .num e.ino
  else if field = "mtimeMs" then .num e.mtimeMs
  else if field = "size" then .num e.size
  else .undefined

/-- JavaScript property access on a `statAll` record. -/
def srGet (s : SResult) (field : String) : JSVal :=
  if field = "ino" then .num s.ino
  else if field = "mtimeMs" then .num s.mtimeMs
  else if field = "size" then .num s.size
  else .undefined

/-- The reuse comparison of `FileHashCache.validate` exactly as written:
`cached.ino === s.ino && cached.mtimeNs === s.mtimeNs &&
cached.ctimeNs === s.ctimeNs && cached.size === s.size`. -/
def validateReuse (cached : CEntry) (s : SResult) : Bool :=
  jsStrictEq (ceGet cached "ino") (srGet s "ino") &&
  jsStrictEq (ceGet cached "mtimeNs") (srGet s "mtimeNs") &&
  jsStrictEq (ceGet cached "ctimeNs") (srGet s "ctimeNs") &&
  jsStrictEq (ceGet cached "size") (srGet s "size")

/-- Modelled from the spec: the reusability test the specification states —
`header_valid`, `stat` succeeded, the old map contains the path, and all
three of `(ino, mtimeMs, size)` match exactly.  This is the per-entry
field comparison; the surrounding conditions are identical to the code's. -/
def specReuse (cached : CEntry) (s : SResult) : Bool :=
  cached.ino == s.ino && cached.mtimeMs == s.mtimeMs && cached.size == s.size

/-- Function `buildEntryMap`: a JavaScript `Map` built by inserting
`paths[i] ↦ entries[i]` in order; a later insertion overwrites an earlier
one, so lookup returns the value of the **last** matching key. -/
def buildEntryMap (paths : List (List Nat)) (entries : List CEntry) :
    List (List Nat × CEntry) :=
  paths.zip entries

/-- Lookup `Map.get` on the association list built by `buildEntryMap` (last
insertion wins). -/
def mapGet (m : List (List Nat × CEntry)) (k : List Nat) : Option CEntry :=
  (m.reverse.find? fun e => e.1 = k).map (·.2)

/-- Outcome of the per-path partition loop of `validate`. -/
inductive Slot where
  | reused (hash : List Nat)
  | zeroed
  | queued
  deriving DecidableEq

/-- The partition loop of `FileHashCache.validate`: for every path, a
failed `stat` keeps the zeroed slot (and is NOT queued); otherwise the old
entry is looked up and the slot is reused when `validateReuse` holds,
else the path is queued for re-hashing. -/
def validateSlots (oldMap : Option (List (List Nat × CEntry)))
    (paths : List (List Nat)) (stats : List (Option SResult)) : List Slot :=
  (paths.zip stats).map fun ps =>
    match ps.2 with
    | none => .zeroed
    | some s =>
      match oldMap.bind (fun m => mapGet m ps.1) with
      | some cached => if validateReuse cached s then .reused cached.hash else .queued
      | none => .queued

/-- Count `rehashed` as returned by `validate`: the number of queued paths. -/
def rehashedCount (slots : List Slot) : Nat :=
  slots.countP (· = .queued)

/-- Claim C1 (code bug witness): a cached entry whose stored `mtimeMs`
(100) differs from the fresh stat's `mtimeMs` (200) while `ino` and `size`
agree is nevertheless reused by the code — the comparison reads the
non-existent `mtimeNs`/`ctimeNs` properties (`undefined === undefined`)
and never compares `mtimeMs` — so `rehashed = 0`, although the spec's
reusability test rejects the entry. -/
theorem claim_C1_mtime_ignored :
    validateSlots
        (some (buildEntryMap [[102]] [⟨1, 100, 5, List.replicate 16 7⟩]))
        [[102]] [some ⟨1, 200, 5⟩]
      = [.reused (List.replicate 16 7)] ∧
    rehashedCount
        (validateSlots
          (some (buildEntryMap [[102]] [⟨1, 100, 5, List.replicate 16 7⟩]))
          [[102]] [some ⟨1, 200, 5⟩]) = 0 ∧
    specReuse ⟨1, 100, 5, List.replicate 16 7⟩ ⟨1, 200, 5⟩ = false := by
  refine ⟨?_, ?_, ?_⟩ <;> decide

/-! ## `FileHashCache.write` — checked cache serialization (claim C3)

Step 5 of `validate` builds the stored entries as
`{ino: s?.ino ?? 0n, mtimeNs: s?.mtimeNs ?? 0n, ctimeNs: s?.ctimeNs ?? 0n,
size: s?.size ?? 0n, hash}`: for a stat-failed path every numeric field is
the BigInt `0n`, and even for a successful stat `mtimeNs`/`ctimeNs` are
`0n` (the `StatResult` has no such properties).  `serializeCache` then
reads `e.ino`, `e.mtimeMs` (an absent property — `undefined`) and
`e.size` and hands each to `DataView.setFloat64`, whose `ToNumber`
coercion converts `undefined` to `NaN` but **throws `TypeError` on a
BigInt**.  So `write` aborts before writing whenever any stat failed, and
only all-stat-success lists ever reach the disk. -/

/-- Failure of the checked serialization: the `TypeError` that
`DataView.setFloat64` raises via `ToNumber` on a BigInt value. -/
inductive SerErr where
  | typeError
  deriving DecidableEq

/-- A JavaScript value handed to `setFloat64`: a number (exact integral
double), `undefined` (an absent property), or the BigInt `0n` fallback
`validate` stores. -/
inductive JSArg where
  | num (v : Int)
  | undefinedArg
  | bigintZero
  deriving DecidableEq

/-- An entry of the validated state as step 5 of `validate` builds it. -/
structure ValidEntry where
  ino : JSArg
  mtimeNs : JSArg
  ctimeNs : JSArg
  size : JSArg
  hash : List Nat

/-- JavaScript property access on a validated entry: the object has keys
`ino`, `mtimeNs`, `ctimeNs`, `size` (and `hash`); any other name — in
particular the `mtimeMs` that `serializeCache` reads — is `undefined`. -/
def veGet (e : ValidEntry) (field : String) : JSArg :=
  if field = "ino" then e.ino
  else if field = "mtimeNs" then e.mtimeNs
  else if field = "ctimeNs" then e.ctimeNs
  else if field = "size" then e.size
  else .undefinedArg

/-- Entries array construction of `validate` step 5: one entry per path,
`BigInt 0n` numeric fields where `stat` failed (and for the
`mtimeNs`/`ctimeNs` properties always, since `StatResult` lacks them). -/
def mkValidEntries (stats : List (Option SResult)) (hashes : List (List Nat)) :
    List ValidEntry :=
  (stats.zip hashes).map fun sh =>
    match sh.1 with
    | some s => ⟨.num s.ino, .bigintZero, .bigintZero, .num s.size, sh.2⟩
    | none => ⟨.bigintZero, .bigintZero, .bigintZero, .bigintZero, sh.2⟩

/-- Semantics of `DataView.setFloat64` applied to a JavaScript value: a
number yields its 8 IEEE-754 LE bytes (encoding abstracted as `f64`),
`undefined` yields the `NaN` bytes, and a BigInt throws `TypeError`. -/
def setFloat64Value (f64 : Int → List Nat) (nanBytes : List Nat) :
    JSArg → Except SerErr (List Nat)
  | .num v => .ok (f64 v)
  | .undefinedArg => .ok nanBytes
  | .bigintZero => .error .typeError

/-- One iteration of `serializeCache`'s entry loop:
`setFloat64(off, e.ino)`, `setFloat64(off+8, e.mtimeMs)`,
`setFloat64(off+16, e.size)`, then the 16 hash bytes at `off+24`. -/
def serializeEntryChecked (f64 : Int → List Nat) (nanBytes : List Nat)
    (e : ValidEntry) : Except SerErr (List Nat) :=
  match setFloat64Value f64 nanBytes (veGet e "ino") with
  | .error err => .error err
  | .ok a =>
    match setFloat64Value f64 nanBytes (veGet e "mtimeMs") with
    | .error err => .error err
    | .ok b =>
      match setFloat64Value f64 nanBytes (veGet e "size") with
      | .error err => .error err
      | .ok c => .ok (a ++ b ++ c ++ e.hash)

/-- The entry loop of `serializeCache`, aborting at the first thrown
`TypeError`. -/
def serializeEntriesChecked (f64 : Int → List Nat) (nanBytes : List Nat) :
    List ValidEntry → Except SerErr (List Nat)
  | [] => .ok []
  | e :: rest =>
    match serializeEntryChecked f64 nanBytes e with
    | .error err => .error err
    | .ok b =>
      match serializeEntriesChecked f64 nanBytes rest with
      | .error err => .error err
      | .ok bs => .ok (b ++ bs)

/-- The 64-byte header `serializeCache` writes (`entry_count` at bytes
8..11, paths-section length at bytes 44..47). -/
def cacheHeader (version entryCount : Nat) (digest fingerprint : List Nat)
    (pathsLen rawLen gzipLen gzipUncompLen rawItemCount gzipItemCount : Nat) :
    List Nat :=
  u32le MAGIC ++
    [version % 256, version / 256 % 256, version / 65536 % 256, 0] ++
    u32le entryCount ++ digest ++ fingerprint ++
    u32le pathsLen ++ u32le rawLen ++ u32le gzipLen ++
    u32le gzipUncompLen ++ u16le rawItemCount ++ u16le gzipItemCount

/-- Function `serializeCache` from the format module with the fallible
`setFloat64` semantics: full cache buffer
`header ++ entries ++ paths ++ rawBlob ++ gzipBlob`, or the propagated
`TypeError` (in which case `write` rejects and no file is produced). -/
def serializeCacheChecked (f64 : Int → List Nat) (nanBytes : List Nat)
    (paths : List (List Nat)) (entries : List ValidEntry)
    (version : Nat) (fingerprint digest : List Nat)
    (rawBlob gzipBlob : List Nat) (gzipUncompLen rawItemCount gzipItemCount : Nat) :
    Except SerErr (List Nat) :=
  let pathsBuf := serializePaths paths
  match serializeEntriesChecked f64 nanBytes entries with
  | .error err => .error err
  | .ok eb =>
    .ok (cacheHeader version paths.length digest fingerprint
        pathsBuf.length rawBlob.length gzipBlob.length gzipUncompLen
        rawItemCount gzipItemCount ++
      eb ++ pathsBuf ++ rawBlob ++ gzipBlob)

/-! ### Checked-serialization lemmas -/

theorem setFloat64Value_ok_length {f64 : Int → List Nat} {nanBytes : List Nat}
    (h8 : ∀ v, (f64 v).length = 8) (hnan : nanBytes.length = 8) :
    ∀ {x : JSArg} {a : List Nat}, setFloat64Value f64 nanBytes x = .ok a → a.length = 8 := by
  intro x a h
  cases x with
  | num v =>
    simp only [setFloat64Value] at h
    cases h
    exact h8 v
  | undefinedArg =>
    simp only [setFloat64Value] at h
    cases h
    exact hnan
  | bigintZero => simp [setFloat64Value] at h

theorem serializeEntryChecked_ok_length {f64 : Int → List Nat} {nanBytes : List Nat}
    (h8 : ∀ v, (f64 v).length = 8) (hnan : nanBytes.length = 8)
    {e : ValidEntry} {b : List Nat} (he : e.hash.length = 16)
    (h : serializeEntryChecked f64 nanBytes e = .ok b) : b.length = 40 := by
  unfold serializeEntryChecked at h
  cases ha : setFloat64Value f64 nanBytes (veGet e "ino") with
  | error ea => rw [ha] at h; cases h
  | ok a =>
    rw [ha] at h
    cases hb : setFloat64Value f64 nanBytes (veGet e "mtimeMs") with
    | error eb => rw [hb] at h; cases h
    | ok bb =>
      rw [hb] at h
      cases hc : setFloat64Value f64 nanBytes (veGet e "size") with
      | error ec => rw [hc] at h; cases h
      | ok c =>
        rw [hc] at h
        cases h
        simp [setFloat64Value_ok_length h8 hnan ha,
          setFloat64Value_ok_length h8 hnan hb,
          setFloat64Value_ok_length h8 hnan hc, he]

theorem serializeEntryChecked_error_of_bigint {f64 : Int → List Nat}
    {nanBytes : List Nat} {e : ValidEntry} (h : e.ino = .bigintZero) :
    serializeEntryChecked f64 nanBytes e = .error .typeError := by
  unfold serializeEntryChecked
  have : veGet e "ino" = .bigintZero := by rw [show veGet e "ino" = e.ino from rfl, h]
  simp [this, setFloat64Value]

theorem serializeEntriesChecked_ok_mem {f64 : Int → List Nat} {nanBytes : List Nat} :
    ∀ {entries : List ValidEntry} {eb : List Nat},
      serializeEntriesChecked f64 nanBytes entries = .ok eb →
      ∀ e ∈ entries, ∃ b, serializeEntryChecked f64 nanBytes e = .ok b := by
  intro entries
  induction entries with
  | nil => intro eb _ e he; simp at he
  | cons e0 rest ih =>
    intro eb h e he
    cases h0 : serializeEntryChecked f64 nanBytes e0 with
    | error e2 => simp [serializeEntriesChecked, h0] at h
    | ok b0 =>
      cases hr : serializeEntriesChecked f64 nanBytes rest with
      | error e2 => simp [serializeEntriesChecked, h0, hr] at h
      | ok bs =>
        rcases List.mem_cons.mp he with rfl | hmem
        · exact ⟨b0, h0⟩
        · exact ih hr e hmem

theorem serializeEntriesChecked_ok_length {f64 : Int → List Nat} {nanBytes : List Nat}
    (h8 : ∀ v, (f64 v).length = 8) (hnan : nanBytes.length = 8) :
    ∀ {entries : List ValidEntry} {eb : List Nat},
      (∀ e ∈ entries, e.hash.length = 16) →
      serializeEntriesChecked f64 nanBytes entries = .ok eb →
      eb.length = 40 * entries.length := by
  intro entries
  induction entries with
  | nil =>
    intro eb _ h
    simp only [serializeEntriesChecked] at h
    cases h
    rfl
  | cons e0 rest ih =>
    intro eb hh h
    cases h0 : serializeEntryChecked f64 nanBytes e0 with
    | error e2 => simp [serializeEntriesChecked, h0] at h
    | ok b0 =>
      cases hr : serializeEntriesChecked f64 nanBytes rest with
      | error e2 => simp [serializeEntriesChecked, h0, hr] at h
      | ok bs =>
        simp only [serializeEntriesChecked, h0, hr] at h
        cases h
        have hb0 : b0.length = 40 :=
          serializeEntryChecked_ok_length h8 hnan (hh e0 (by simp)) h0
        have hbs : bs.length = 40 * rest.length :=
          ih (fun e he => hh e (by simp [he])) hr
        simp [hb0, hbs, List.length_cons]
        ring

theorem serializeEntriesChecked_error_of_mem {f64 : Int → List Nat}
    {nanBytes : List Nat} :
    ∀ {entries : List ValidEntry} {e : ValidEntry}, e ∈ entries →
      serializeEntryChecked f64 nanBytes e = .error .typeError →
      serializeEntriesChecked f64 nanBytes entries = .error .typeError := by
  intro entries
  induction entries with
  | nil => intro e he; simp at he
  | cons e0 rest ih =>
    intro e he herr
    rcases List.mem_cons.mp he with rfl | hmem
    · simp [serializeEntriesChecked, herr]
    · cases h0 : serializeEntryChecked f64 nanBytes e0 with
      | error e2 => cases e2; simp [serializeEntriesChecked, h0]
      | ok b0 => simp [serializeEntriesChecked, h0, ih hmem herr]

theorem mkValidEntries_getElem_none {stats : List (Option SResult)}
    {hashes : List (List Nat)} {i : Nat} {h : List Nat}
    (hs : stats[i]? = some none) (hh : hashes[i]? = some h) :
    (mkValidEntries stats hashes)[i]?
      = some ⟨.bigintZero, .bigintZero, .bigintZero, .bigintZero, h⟩ := by
  unfold mkValidEntries
  rw [List.getElem?_map, show (stats.zip hashes)[i]? = some (none, h) from
    List.getElem?_zip_eq_some.mpr ⟨hs, hh⟩]
  rfl

theorem mkValidEntries_hash_mem {stats : List (Option SResult)}
    {hashes : List (List Nat)} {e : ValidEntry}
    (he : e ∈ mkValidEntries stats hashes) : e.hash ∈ hashes := by
  unfold mkValidEntries at he
  obtain ⟨⟨st, h⟩, hmem, rfl⟩ := List.mem_map.mp he
  have := (List.of_mem_zip hmem).2
  cases st <;> simpa using this

theorem nulSegmentCount_serializePaths (paths : List (List Nat))
    (hfree : ∀ p ∈ paths, ¬ p.contains 0) :
    nulSegmentCount (serializePaths paths) = paths.length := by
  induction paths with
  | nil => rfl
  | cons p rest ih =>
    have hp : (p.countP fun b => b = 0) = 0 := by
      rw [List.countP_eq_zero]
      intro a ha hdec
      have haz : a = 0 := by simpa using hdec
      have h0 : (0 : Nat) ∈ p := haz ▸ ha
      have hnot : (0 : Nat) ∉ p := by
        simpa using hfree p (List.mem_cons_self p rest)
      exact hnot h0
    have hrest : nulSegmentCount (serializePaths rest) = rest.length :=
      ih fun q hq => hfree q (List.mem_cons_of_mem p hq)
    simp only [serializePaths, List.map_cons, List.flatten_cons, nulSegmentCount,
      List.countP_append] at hrest ⊢
    simp [hp, hrest]
    omega

theorem readU32le_u32le_append (n : Nat) (hn : n < 2 ^ 32) (rest : List Nat) :
    readU32le (u32le n ++ rest) = n := by
  simp only [u32le, readU32le, List.cons_append]
  omega

/-- Claim C3: every cache file `FileHashCache.write` actually produces
satisfies `entry_count = number of NUL-terminated segments in the paths
section`, for every validated path list — including lists with empty or
NUL-containing paths, because those never reach the disk: such paths fail
`stat`, `validate` stores the BigInt `0n` in their entries, and
`setFloat64` throws `TypeError` on a BigInt, so `write` rejects before
writing (second conjunct).  A successful serialization stems from an
all-stat-success list; since a path whose `stat` succeeded contains no
NUL byte (NUL is illegal in filesystem paths), the paths section holds
exactly one NUL-terminated segment per entry, matching the `entry_count`
header field (first conjunct). -/
theorem claim_C3_entry_count_invariant
    (f64 : Int → List Nat) (nanBytes : List Nat)
    (paths : List (List Nat)) (stats : List (Option SResult))
    (hashes : List (List Nat)) (version : Nat)
    (fingerprint digest rawBlob gzipBlob : List Nat)
    (gzipUncompLen rawItemCount gzipItemCount : Nat)
    (h8 : ∀ v, (f64 v).length = 8) (hnan : nanBytes.length = 8)
    (hhash : ∀ h ∈ hashes, h.length = 16)
    (hdig : digest.length = 16) (hfp : fingerprint.length = 16)
    (hsl : stats.length = paths.length) (hhl : hashes.length = paths.length)
    (hcnt : paths.length < 2 ^ 32)
    (hpl : (serializePaths paths).length < 2 ^ 32)
    (henv : ∀ (i : Nat) (p : List Nat) (s : SResult),
      paths[i]? = some p → stats[i]? = some (some s) → ¬ p.contains 0) :
    (∀ buf,
      serializeCacheChecked f64 nanBytes paths (mkValidEntries stats hashes)
          version fingerprint digest rawBlob gzipBlob gzipUncompLen
          rawItemCount gzipItemCount = .ok buf →
      readU32le (buf.drop 8) = paths.length ∧
      readU32le (buf.drop 44) = (serializePaths paths).length ∧
      (buf.drop (64 + 40 * paths.length)).take (serializePaths paths).length
        = serializePaths paths ∧
      nulSegmentCount
        ((buf.drop (64 + 40 * paths.length)).take (serializePaths paths).length)
        = paths.length) ∧
    (∀ (i : Nat), stats[i]? = some none →
      serializeCacheChecked f64 nanBytes paths (mkValidEntries stats hashes)
          version fingerprint digest rawBlob gzipBlob gzipUncompLen
          rawItemCount gzipItemCount = .error .typeError) := by
  constructor
  · intro buf hok
    unfold serializeCacheChecked at hok
    cases he : serializeEntriesChecked f64 nanBytes (mkValidEntries stats hashes) with
    | error err => rw [he] at hok; cases hok
    | ok eb =>
      rw [he] at hok
      cases hok
      have hfree : ∀ p ∈ paths, ¬ p.contains 0 := by
        intro p hp
        obtain ⟨i, hip⟩ := List.mem_iff_getElem?.mp hp
        have hilt : i < paths.length := (List.getElem?_eq_some_iff.mp hip).1
        have hslt : i < stats.length := by omega
        cases hst : stats[i] with
        | none =>
          exfalso
          have hhlt : i < hashes.length := by omega
          have hent := mkValidEntries_getElem_none
            (by rw [List.getElem?_eq_getElem hslt, hst]) (List.getElem?_eq_getElem hhlt)
          obtain ⟨b, hb⟩ :=
            serializeEntriesChecked_ok_mem he _ (List.getElem?_mem hent)
          rw [serializeEntryChecked_error_of_bigint rfl] at hb
          cases hb
        | some s =>
          exact henv i p s hip (by rw [List.getElem?_eq_getElem hslt, hst])
      have hmel : (mkValidEntries stats hashes).length = paths.length := by
        simp [mkValidEntries, List.length_zip, hsl, hhl]
      have hebl : eb.length = 40 * paths.length := by
        rw [serializeEntriesChecked_ok_length h8 hnan
          (fun e hme => hhash _ (mkValidEntries_hash_mem hme)) he, hmel]
      have hP8 : (u32le MAGIC ++
          [version % 256, version / 256 % 256, version / 65536 % 256, 0]).length = 8 := by
        simp [u32le]
      refine ⟨?_, ?_, ?_, ?_⟩
      · have hsplit : cacheHeader version paths.length digest fingerprint
              (serializePaths paths).length rawBlob.length gzipBlob.length
              gzipUncompLen rawItemCount gzipItemCount ++
            eb ++ serializePaths paths ++ rawBlob ++ gzipBlob
            = (u32le MAGIC ++
                [version % 256, version / 256 % 256, version / 65536 % 256, 0]) ++
              (u32le paths.length ++ (digest ++ (fingerprint ++
                (u32le (serializePaths paths).length ++ (u32le rawBlob.length ++
                (u32le gzipBlob.length ++ (u32le gzipUncompLen ++
                (u16le rawItemCount ++ (u16le gzipItemCount ++
                (eb ++ (serializePaths paths ++ (rawBlob ++ gzipBlob)))))))))))) := by
          simp [cacheHeader, List.append_assoc]
        rw [hsplit, List.drop_left' hP8, readU32le_u32le_append _ hcnt]
      · have hsplit : cacheHeader version paths.length digest fingerprint
              (serializePaths paths).length rawBlob.length gzipBlob.length
              gzipUncompLen rawItemCount gzipItemCount ++
            eb ++ serializePaths paths ++ rawBlob ++ gzipBlob
            = (u32le MAGIC ++
                [version % 256, version / 256 % 256, version / 65536 % 256, 0] ++
                u32le paths.length ++ digest ++ fingerprint) ++
              (u32le (serializePaths paths).length ++ (u32le rawBlob.length ++
                (u32le gzipBlob.length ++ (u32le gzipUncompLen ++
                (u16le rawItemCount ++ (u16le gzipItemCount ++
                (eb ++ (serializePaths paths ++ (rawBlob ++ gzipBlob))))))))) := by
          simp [cacheHeader, List.append_assoc]
        have hP44 : (u32le MAGIC ++
            [version % 256, version / 256 % 256, version / 65536 % 256, 0] ++
            u32le paths.length ++ digest ++ fingerprint).length = 44 := by
          simp [u32le, hdig, hfp]
        rw [hsplit, List.drop_left' hP44, readU32le_u32le_append _ hpl]
      · have hsplit : cacheHeader version paths.length digest fingerprint
              (serializePaths paths).length rawBlob.length gzipBlob.length
              gzipUncompLen rawItemCount gzipItemCount ++
            eb ++ serializePaths paths ++ rawBlob ++ gzipBlob
            = (cacheHeader version paths.length digest fingerprint
                (serializePaths paths).length rawBlob.length gzipBlob.length
                gzipUncompLen rawItemCount gzipItemCount ++ eb) ++
              (serializePaths paths ++ (rawBlob ++ gzipBlob)) := by
          simp [List.append_assoc]
        have hP64 : (cacheHeader version paths.length digest fingerprint
            (serializePaths paths).length rawBlob.length gzipBlob.length
            gzipUncompLen rawItemCount gzipItemCount ++ eb).length
            = 64 + 40 * paths.length := by
          simp [cacheHeader, u32le, u16le, hdig, hfp, hebl]
          omega
        rw [hsplit, List.drop_left' hP64, List.take_left' rfl]
      · have hsplit : cacheHeader version paths.length digest fingerprint
              (serializePaths paths).length rawBlob.length gzipBlob.length
              gzipUncompLen rawItemCount gzipItemCount ++
            eb ++ serializePaths paths ++ rawBlob ++ gzipBlob
            = (cacheHeader version paths.length digest fingerprint
                (serializePaths paths).length rawBlob.length gzipBlob.length
                gzipUncompLen rawItemCount gzipItemCount ++ eb) ++
              (serializePaths paths ++ (rawBlob ++ gzipBlob)) := by
          simp [List.append_assoc]
        have hP64 : (cacheHeader version paths.length digest fingerprint
            (serializePaths paths).length rawBlob.length gzipBlob.length
            gzipUncompLen rawItemCount gzipItemCount ++ eb).length
            = 64 + 40 * paths.length := by
          simp [cacheHeader, u32le, u16le, hdig, hfp, hebl]
          omega
        rw [hsplit, List.drop_left' hP64, List.take_left' rfl,
          nulSegmentCount_serializePaths paths hfree]
  · intro i hi
    have hslt : i < stats.length := (List.getElem?_eq_some_iff.mp hi).1
    have hhlt : i < hashes.length := by omega
    have hent := mkValidEntries_getElem_none hi (List.getElem?_eq_getElem hhlt)
    have herr := @serializeEntriesChecked_error_of_mem f64 nanBytes _ _
      (List.getElem?_mem hent) (serializeEntryChecked_error_of_bigint rfl)
    unfold serializeCacheChecked
    rw [herr]

/-! ## `FileHashCache.write` — gzip level check

`write` first requires validated state, then checks the gzip level — but
only when gzip items were actually supplied:
`if (gzipItems.length > 0 && (gzipLevel < 1 || gzipLevel > 9)) throw RangeError`. -/

/-- Failure kinds of `FileHashCache.write`'s front checks. -/
inductive WriteErr where
  | precond
  | range
  deriving DecidableEq

/-- The precondition and gzip-level checks of `FileHashCache.write`:
missing validated state fails first; then a `Range` failure is raised
only when gzip items are present and the (defaulted) level is outside
`1..=9`. -/
def writeChecks (validated : Bool) (gzipItemCount : Nat) (gzipLevel : Option Int) :
    Except WriteErr Unit :=
  if !validated then .error .precond
  else
    let lvl := gzipLevel.getD 1
    if gzipItemCount > 0 && (lvl < 1 || lvl > 9) then .error .range
    else .ok ()

/-- Claim C4 counterexample: a `write` after a successful `validate` with
`gzipLevel = 0` but **no** gzip items does not fail — the level check
is skipped when the gzip item list is empty, so the claim's unconditional
`Range` failure for out-of-range levels is false at this input. -/
theorem claim_C4_counterexample :
    writeChecks true 0 (some 0) = .ok () := by
  rfl

/-- Claim C4 (amended): a `write` after a successful `validate` fails with
a `Range` error exactly when gzip items are present and the supplied
gzip level (default 1 when omitted) lies outside `1..=9`; with no gzip
items the level is ignored, and an in-range or omitted level never causes
a `Range` failure. -/
theorem claim_C4_gzip_level_range (validated : Bool) (gzipItemCount : Nat)
    (gzipLevel : Option Int) :
    writeChecks validated gzipItemCount gzipLevel = .error .range ↔
      validated = true ∧ 0 < gzipItemCount ∧
        (gzipLevel.getD 1 < 1 ∨ 9 < gzipLevel.getD 1) := by
  unfold writeChecks
  cases validated
  · simp
  · simp only [Bool.not_true, Bool.false_eq_true, if_false, true_and]
    split
    · rename_i hc
      simp only [Bool.and_eq_true, Bool.or_eq_true, decide_eq_true_eq] at hc
      simp [hc]
    · rename_i hc
      simp only [Bool.and_eq_true, Bool.or_eq_true, decide_eq_true_eq] at hc
      constructor
      · intro h; simp at h
      · intro h; exact absurd h hc

/-! ## `HashFilesWorker::run` — thread count and batch size

The staged definitions mirror the sequential re-assignments of the local
variables `hw`, `tc` and `batch` in the source. -/

/-- Value `hw` after the floor: `if (hw < 2) hw = 2`. -/
def hwFloor (hwRaw : Int) : Int :=
  if hwRaw < 2 then 2 else hwRaw

/-- Value `tc` after the concurrency selection and the `MAX_STACK_THREADS = 16`
and `tc < 1` caps. -/
def tcInitial (hw concurrency : Int) : Int :=
  let tc := if concurrency > 0 then concurrency else hw
  let tc := if tc > 16 then 16 else tc
  if tc < 1 then 1 else tc

/-- Value `tc` after the global active-threads budget cap:
`budget = hw - active; if (budget < 1) budget = 1; if (tc > budget) tc = budget`. -/
def tcBudgeted (tc hw active : Int) : Int :=
  let budget := hw - active
  let budget := if budget < 1 then 1 else budget
  if tc > budget then budget else tc

/-- Batch size `batch = file_count / (tc*4)` clamped to `MIN_WORK_BATCH..MAX_WORK_BATCH`
(`1..32`; the division is the C++ `size_t` division). -/
def workBatch (fileCount : Nat) (tc : Int) : Nat :=
  let batch := fileCount / (tc * 4).toNat
  let batch := if batch < 1 then 1 else batch
  if batch > 32 then 32 else batch

/-- Cap `max_useful = (file_count + batch - 1) / batch` (`size_t` arithmetic). -/
def maxUseful (fileCount batch : Nat) : Nat :=
  (fileCount + batch - 1) / batch

/-- The thread count and work batch `HashFilesWorker::run` settles on,
given raw `hardware_concurrency`, the caller's concurrency hint, the
current `g_active_hash_threads` value and the file count. -/
def hashFilesRunPlan (hwRaw concurrency active : Int) (fileCount : Nat) : Int × Nat :=
  let hw := hwFloor hwRaw
  let tc := tcInitial hw concurrency
  let tc := tcBudgeted tc hw active
  let batch := workBatch fileCount tc
  let mu := maxUseful fileCount batch
  let tc := if tc > (mu : Int) then (mu : Int) else tc
  (if tc < 1 then 1 else tc, batch)

/-- Modelled from the spec: the thread-count cascade exactly as the claim
states it, with `H` the spec's hardware parallelism (floor 2 per §4.C):
`T = (C > 0 ? C : max(H, 2))`, capped at 16, capped by
`max(1, H − active)`, then `batch = clamp(N / (T·4), 1, 32)` and a final
cap by `⌈N / batch⌉`. -/
def specThreadPlan (H C active : Int) (N : Nat) : Int × Nat :=
  let t1 := if C > 0 then C else max H 2
  let t2 := min t1 16
  let t3 := min t2 (max 1 (H - active))
  let batch := min (max (N / (t3 * 4).toNat) 1) 32
  (min t3 ((N + batch - 1) / batch : Nat), batch)

theorem hwFloor_eq_max (hwRaw : Int) : hwFloor hwRaw = max hwRaw 2 := by
  unfold hwFloor
  rw [Int.max_def]
  split <;> split <;> omega

theorem tcInitial_eq_spec (H C : Int) (hH : 2 ≤ H) :
    tcInitial H C = min (if C > 0 then C else max H 2) 16 := by
  simp only [tcInitial]
  have hmax : max H 2 = H := by omega
  rw [hmax, Int.min_def]
  split <;> split <;> split <;> omega

theorem tcInitial_pos (H C : Int) (hH : 2 ≤ H) : 1 ≤ tcInitial H C := by
  simp only [tcInitial]
  split <;> split <;> omega

theorem tcBudgeted_eq_spec (tc H active : Int) :
    tcBudgeted tc H active = min tc (max 1 (H - active)) := by
  simp only [tcBudgeted]
  rw [Int.min_def, Int.max_def]
  split <;> split <;> split <;> split <;> omega

theorem tcBudgeted_pos (tc H active : Int) (htc : 1 ≤ tc) :
    1 ≤ tcBudgeted tc H active := by
  simp only [tcBudgeted]
  split <;> split <;> omega

theorem workBatch_eq_spec (N : Nat) (tc : Int) :
    workBatch N tc = min (max (N / (tc * 4).toNat) 1) 32 := by
  simp only [workBatch]
  generalize N / (tc * 4).toNat = b
  split <;> split <;> omega

theorem workBatch_pos (N : Nat) (tc : Int) : 1 ≤ workBatch N tc := by
  rw [workBatch_eq_spec]
  omega

theorem maxUseful_pos (N batch : Nat) (hN : 1 ≤ N) (hb : 1 ≤ batch) :
    1 ≤ maxUseful N batch := by
  unfold maxUseful
  rw [Nat.le_div_iff_mul_le (by omega)]
  omega

/-- Claim C8: the engine's thread count is always at least 1, and for every
actual invocation (the engine is only entered with at least one file) the
thread count and batch size equal the claim's cascade
`T = (C > 0 ? C : max(H,2))`, capped at 16, capped by
`max(1, H − active)`, with `batch = clamp(N/(T·4), 1, 32)` and a final cap
by `⌈N/batch⌉`, where `H` is the hardware parallelism floored at 2. -/
theorem claim_C8_thread_plan (hwRaw concurrency active : Int) (N : Nat) :
    1 ≤ (hashFilesRunPlan hwRaw concurrency active N).1 ∧
      (1 ≤ N →
        hashFilesRunPlan hwRaw concurrency active N =
          specThreadPlan (max hwRaw 2) concurrency active N) := by
  constructor
  · simp only [hashFilesRunPlan]
    split <;> omega
  · intro hN
    have hH : (2 : Int) ≤ max hwRaw 2 := le_max_right _ _
    simp only [hashFilesRunPlan, specThreadPlan, maxUseful]
    rw [hwFloor_eq_max, tcInitial_eq_spec _ _ hH, tcBudgeted_eq_spec, workBatch_eq_spec]
    set T3 := min (min (if concurrency > 0 then concurrency else max (max hwRaw 2) 2) 16)
        (max 1 (max hwRaw 2 - active)) with hT3
    have hT3pos : 1 ≤ T3 := by
      rw [hT3]
      rcases le_or_lt concurrency 0 with h | h
      · simp [not_lt.2, h]
      · simp [h]
        omega
    generalize N / (T3 * 4).toNat = q
    set B := min (max q 1) 32 with hB
    have hBpos : 1 ≤ B := by rw [hB]; omega
    have hMpos : 1 ≤ (N + B - 1) / B := by
      rw [Nat.le_div_iff_mul_le (by omega)]
      omega
    generalize hM : (N + B - 1) / B = M
    rw [hM] at hMpos
    have hfin : (if T3 > (M : Int) then (M : Int) else T3) = min T3 M := by
      rw [Int.min_def]
      split <;> split <;> omega
    rw [hfin]
    have hminpos : 1 ≤ min T3 (M : Int) := by
      have : (1 : Int) ≤ (M : Int) := by exact_mod_cast hMpos
      omega
    rw [if_neg (by omega)]

/-! ## Streaming hasher backends

Both backends drive the same xxHash library (the native addon links the
vendored `xxhash` sources; the portable backend runs the same sources
compiled to WebAssembly).  The library itself is not part of `src/`, so it
is represented by an opaque state type `σ` with the operations the glue
code calls; the glue code of both backends is translated faithfully. -/

/-- Modelled from the spec: the XXH3-128 streaming library (the vendored
`xxhash` submodule / the compiled WASM module, both absent from `src/`).
`init` is `XXH3_128bits_reset_withSeed`, `upd` is `XXH3_128bits_update`,
`fin` is `XXH128_canonicalFromHash ∘ XXH3_128bits_digest` (a pure read of
the state producing the 16 canonical bytes), and `finMut` is the state
mutation the WASM module's destructive `Hash_Final` performs. -/
structure XXH3Lib (σ : Type) where
  init : Nat → σ
  upd : σ → List Nat → σ
  fin : σ → List Nat
  finMut : σ → σ

/-- Failure raised by the offset/length guards of both backends. -/
inductive HashErr where
  | range
  deriving DecidableEq

/-- Write `src` into `dst` starting at `off`, overwriting `src.length`
bytes (the semantics of `TypedArray.set` / `memcpy` in the guarded
branches, where `off + src.length ≤ dst.length`). -/
def listWrite (dst : List Nat) (off : Nat) (src : List Nat) : List Nat :=
  dst.take off ++ src ++ dst.drop (off + src.length)

/-! ### Native backend (`XXHash128Wrap`) -/

/-- Native hasher: an `XXH3_state_t` plus the constructor seed
(`(seedHigh << 32) | seedLow`). -/
structure NativeHasher (σ : Type) where
  seed : Nat
  state : σ

/-- The `XXHash128Wrap` constructor: assemble the 64-bit seed and reset. -/
def nativeNew {σ : Type} (L : XXH3Lib σ) (seedLow seedHigh : Nat) : NativeHasher σ :=
  { seed := (seedHigh <<< 32) ||| seedLow, state := L.init ((seedHigh <<< 32) ||| seedLow) }

/-- Method `XXHash128Wrap::Reset`: reset with the stored seed. -/
def nativeReset {σ : Type} (L : XXH3Lib σ) (h : NativeHasher σ) : NativeHasher σ :=
  { h with state := L.init h.seed }

/-- Method `XXHash128Wrap::Update`: range-check `offset + length`, then feed the
span `buf[offset .. offset+length)`. -/
def nativeUpdate {σ : Type} (L : XXH3Lib σ) (h : NativeHasher σ)
    (buf : List Nat) (offset length : Nat) : Except HashErr (NativeHasher σ) :=
  if offset + length > buf.length then .error .range
  else .ok { h with state := L.upd h.state ((buf.drop offset).take length) }

/-- Method `XXHash128Wrap::Digest`: canonical 16 bytes of the current state; the
state is read, not modified. -/
def nativeDigest {σ : Type} (L : XXH3Lib σ) (h : NativeHasher σ) : List Nat :=
  L.fin h.state

/-- Method `XXHash128Wrap::DigestTo`: range-check, then `memcpy` the 16 canonical
bytes into the output at `offset`. -/
def nativeDigestTo {σ : Type} (L : XXH3Lib σ) (h : NativeHasher σ)
    (out : List Nat) (offset : Nat) : Except HashErr (List Nat) :=
  if offset + 16 > out.length then .error .range
  else .ok (listWrite out offset (L.fin h.state))

/-! ### Portable (WASM) backend glue (`xxhash128-wasm` module)

The JS glue owns two visible memory regions of the module instance: the
opaque streaming-state region (contents `state : σ`) and the 16 KiB I/O
buffer at `Hash_GetBuffer()` (contents `buf`).  `writeSeed` stores the two
seed halves little-endian at the start of the I/O buffer; `Hash_Init`
reads them from there; `Hash_Update n` consumes the first `n` buffer
bytes; `Hash_Final` writes the 16 digest bytes at the start of the buffer
and destructively updates the state region. -/

/-- Constant `WASM_BUF_SIZE`: the module's 16 KiB I/O buffer. -/
def WASM_BUF_SIZE : Nat := 16 * 1024

/-- Portable hasher instance: stored seed halves plus the two memory
regions of its private WASM module instance. -/
structure WasmHasher (σ : Type) where
  seedLow : Nat
  seedHigh : Nat
  state : σ
  buf : List Nat

/-- The `u64` little-endian bytes of the two seed halves, as `writeSeed`
stores them (`seedLow` at offset 0, `seedHigh` at offset 4). -/
def u64leBytes (lo hi : Nat) : List Nat :=
  u32le lo ++ u32le hi

/-- Decode the `u64` stored little-endian at the head of a byte list. -/
def readU64le (bytes : List Nat) : Nat :=
  readU32le bytes + readU32le (bytes.drop 4) * 2 ^ 32

/-- Function `writeSeed`: store the seed halves at the start of the I/O buffer. -/
def wasmWriteSeed {σ : Type} (m : WasmHasher σ) : WasmHasher σ :=
  { m with buf := listWrite m.buf 0 (u64leBytes m.seedLow m.seedHigh) }

/-- Modelled from the spec: the WASM module's `Hash_Init` — reset the
state region with the 64-bit seed read from the start of the I/O buffer
(spec §3: the seed is reassembled as `(seedHigh << 32) | seedLow`). -/
def wasmHashInit {σ : Type} (L : XXH3Lib σ) (m : WasmHasher σ) : WasmHasher σ :=
  { m with state := L.init (readU64le m.buf) }

/-- Modelled from the spec: the WASM module's `Hash_Update n` — absorb the
first `n` bytes of the I/O buffer into the state region. -/
def wasmHashUpdate {σ : Type} (L : XXH3Lib σ) (m : WasmHasher σ) (n : Nat) : WasmHasher σ :=
  { m with state := L.upd m.state (m.buf.take n) }

/-- Modelled from the spec: the WASM module's `Hash_Final` — write the 16
canonical digest bytes at the start of the I/O buffer and destructively
update the state region. -/
def wasmHashFinal {σ : Type} (L : XXH3Lib σ) (m : WasmHasher σ) : WasmHasher σ :=
  { m with state := L.finMut m.state, buf := listWrite m.buf 0 (L.fin m.state) }

/-- Function `initWasmInstanceState`: fresh module instance (zeroed memory; the
initial state-region contents are irrelevant and immediately overwritten),
store the seed halves, `writeSeed`, `Hash_Init`. -/
def wasmInitInstance {σ : Type} (L : XXH3Lib σ) (seedLow seedHigh : Nat) : WasmHasher σ :=
  wasmHashInit L (wasmWriteSeed
    { seedLow := seedLow, seedHigh := seedHigh, state := L.init 0,
      buf := List.replicate WASM_BUF_SIZE 0 })

/-- Function `wasmReset`: re-write the stored seed halves and `Hash_Init`. -/
def wasmReset {σ : Type} (L : XXH3Lib σ) (m : WasmHasher σ) : WasmHasher σ :=
  wasmHashInit L (wasmWriteSeed m)

/-- The 16 KiB chunks `wasmUpdate`'s copy loop feeds
(`chunk = min(length - read, WASM_BUF_SIZE)` per iteration). -/
def wasmChunks : List Nat → List (List Nat)
  | [] => []
  | b :: rest =>
    (b :: rest).take WASM_BUF_SIZE :: wasmChunks ((b :: rest).drop WASM_BUF_SIZE)
termination_by l => l.length
decreasing_by
  simp only [WASM_BUF_SIZE, List.length_drop, List.length_cons]
  omega

/-- One iteration of `wasmUpdate`'s loop: `mem.set(chunk)` then
`Hash_Update(chunk.length)`. -/
def wasmFeedChunk {σ : Type} (L : XXH3Lib σ) (m : WasmHasher σ) (chunk : List Nat) :
    WasmHasher σ :=
  wasmHashUpdate L { m with buf := listWrite m.buf 0 chunk } chunk.length

/-- Function `wasmUpdate`: range-check `offset + length`, then copy the span
through the I/O buffer in chunks of at most `WASM_BUF_SIZE` bytes. -/
def wasmUpdate {σ : Type} (L : XXH3Lib σ) (m : WasmHasher σ)
    (input : List Nat) (offset length : Nat) : Except HashErr (WasmHasher σ) :=
  if offset + length > input.length then .error .range
  else .ok ((wasmChunks ((input.drop offset).take length)).foldl (wasmFeedChunk L) m)

/-- Function `wasmDigest`: save the state region, `Hash_Final`, read the 16 digest
bytes from the start of the I/O buffer, restore the state region. -/
def wasmDigest {σ : Type} (L : XXH3Lib σ) (m : WasmHasher σ) : List Nat × WasmHasher σ :=
  let saved := m.state
  let m1 := wasmHashFinal L m
  (m1.buf.take 16, { m1 with state := saved })

/-- Function `wasmDigestTo`: range-check, then like `wasmDigest` but `set` the 16
digest bytes into the caller's output at `offset`. -/
def wasmDigestTo {σ : Type} (L : XXH3Lib σ) (m : WasmHasher σ)
    (output : List Nat) (offset : Nat) : Except HashErr (List Nat × WasmHasher σ) :=
  if offset + 16 > output.length then .error .range
  else
    let saved := m.state
    let m1 := wasmHashFinal L m
    .ok (listWrite output offset (m1.buf.take 16), { m1 with state := saved })

/-! ### Operation sequences over a hasher -/

/-- An operation of the common hasher capability set. -/
inductive HOp where
  | reset
  | update (data : List Nat) (offset length : Nat)
  | digest
  | digestTo (out : List Nat) (offset : Nat)

/-- Observable result of one operation: `none` for a silent success,
`some (.ok bytes)` for a produced digest / written output buffer,
`some (.error e)` for a raised range failure. -/
abbrev HObs := Option (Except HashErr (List Nat))

/-- One native operation step (a raised error leaves the hasher as it
was — the guards precede any mutation). -/
def nativeStep {σ : Type} (L : XXH3Lib σ) (h : NativeHasher σ) :
    HOp → HObs × NativeHasher σ
  | .reset => (none, nativeReset L h)
  | .update data off len =>
    match nativeUpdate L h data off len with
    | .error e => (some (.error e), h)
    | .ok h2 => (none, h2)
  | .digest => (some (.ok (nativeDigest L h)), h)
  | .digestTo out off =>
    match nativeDigestTo L h out off with
    | .error e => (some (.error e), h)
    | .ok res => (some (.ok res), h)

/-- Run a native hasher over an operation sequence, collecting the
observations. -/
def nativeRun {σ : Type} (L : XXH3Lib σ) :
    NativeHasher σ → List HOp → List HObs × NativeHasher σ
  | h, [] => ([], h)
  | h, op :: ops =>
    let s := nativeStep L h op
    let r := nativeRun L s.2 ops
    (s.1 :: r.1, r.2)

/-- One portable (WASM) operation step. -/
def wasmStep {σ : Type} (L : XXH3Lib σ) (m : WasmHasher σ) :
    HOp → HObs × WasmHasher σ
  | .reset => (none, wasmReset L m)
  | .update data off len =>
    match wasmUpdate L m data off len with
    | .error e => (some (.error e), m)
    | .ok m2 => (none, m2)
  | .digest =>
    let d := wasmDigest L m
    (some (.ok d.1), d.2)
  | .digestTo out off =>
    match wasmDigestTo L m out off with
    | .error e => (some (.error e), m)
    | .ok res => (some (.ok res.1), res.2)

/-- Run a portable hasher over an operation sequence, collecting the
observations. -/
def wasmRun {σ : Type} (L : XXH3Lib σ) :
    WasmHasher σ → List HOp → List HObs × WasmHasher σ
  | m, [] => ([], m)
  | m, op :: ops =>
    let s := wasmStep L m op
    let r := wasmRun L s.2 ops
    (s.1 :: r.1, r.2)

/-! ### Hasher lemmas -/

theorem listWrite_zero (dst src : List Nat) :
    listWrite dst 0 src = src ++ dst.drop src.length := by
  simp [listWrite]

/-- Writing a chunk at the front of the I/O buffer and reading back that
many bytes returns exactly the chunk, whatever was in the buffer. -/
theorem take_listWrite_zero (dst src : List Nat) :
    (listWrite dst 0 src).take src.length = src := by
  rw [listWrite_zero]
  exact List.take_left' rfl

theorem wasmFeedChunk_state {σ : Type} (L : XXH3Lib σ) (m : WasmHasher σ)
    (chunk : List Nat) :
    (wasmFeedChunk L m chunk).state = L.upd m.state chunk := by
  simp [wasmFeedChunk, wasmHashUpdate, take_listWrite_zero]

theorem wasmFeedChunk_seedLow {σ : Type} (L : XXH3Lib σ) (m : WasmHasher σ)
    (chunk : List Nat) : (wasmFeedChunk L m chunk).seedLow = m.seedLow := rfl

theorem wasmFeedChunk_seedHigh {σ : Type} (L : XXH3Lib σ) (m : WasmHasher σ)
    (chunk : List Nat) : (wasmFeedChunk L m chunk).seedHigh = m.seedHigh := rfl

theorem foldl_feed_seedLow {σ : Type} (L : XXH3Lib σ) (cs : List (List Nat)) :
    ∀ m : WasmHasher σ, (cs.foldl (wasmFeedChunk L) m).seedLow = m.seedLow := by
  induction cs with
  | nil => intro m; rfl
  | cons c rest ih => intro m; simp [List.foldl_cons, ih, wasmFeedChunk_seedLow]

theorem foldl_feed_seedHigh {σ : Type} (L : XXH3Lib σ) (cs : List (List Nat)) :
    ∀ m : WasmHasher σ, (cs.foldl (wasmFeedChunk L) m).seedHigh = m.seedHigh := by
  induction cs with
  | nil => intro m; rfl
  | cons c rest ih => intro m; simp [List.foldl_cons, ih, wasmFeedChunk_seedHigh]

/-- The state evolution of one chunk-fold depends only on the initial
state, never on the I/O buffer contents. -/
theorem foldl_feed_state_congr {σ : Type} (L : XXH3Lib σ) (cs : List (List Nat)) :
    ∀ m1 m2 : WasmHasher σ, m1.state = m2.state →
      (cs.foldl (wasmFeedChunk L) m1).state = (cs.foldl (wasmFeedChunk L) m2).state := by
  induction cs with
  | nil => intro m1 m2 h; exact h
  | cons c rest ih =>
    intro m1 m2 h
    simp only [List.foldl_cons]
    exact ih _ _ (by rw [wasmFeedChunk_state, wasmFeedChunk_state, h])

/-- Under the streaming-homomorphism contract of the library, the chunked
copy loop of `wasmUpdate` absorbs exactly the input span. -/
theorem wasmChunks_foldl_state {σ : Type} (L : XXH3Lib σ)
    (hcat : ∀ s a b, L.upd (L.upd s a) b = L.upd s (a ++ b))
    (hnil : ∀ s, L.upd s [] = s) :
    ∀ (data : List Nat) (m : WasmHasher σ),
      ((wasmChunks data).foldl (wasmFeedChunk L) m).state = L.upd m.state data
  | [], m => by simp [wasmChunks, hnil]
  | b :: rest, m => by
    rw [show wasmChunks (b :: rest)
          = (b :: rest).take WASM_BUF_SIZE :: wasmChunks ((b :: rest).drop WASM_BUF_SIZE)
        from by rw [wasmChunks]]
    rw [List.foldl_cons,
      wasmChunks_foldl_state L hcat hnil ((b :: rest).drop WASM_BUF_SIZE) _,
      wasmFeedChunk_state, hcat, List.take_append_drop]
  termination_by data => data.length
  decreasing_by simp only [WASM_BUF_SIZE, List.length_drop, List.length_cons]; omega

/-- After `Hash_Final` the first 16 buffer bytes are exactly the canonical
digest of the pre-final state. -/
theorem wasmFinal_buf_take16 {σ : Type} (L : XXH3Lib σ)
    (hfin16 : ∀ s, (L.fin s).length = 16) (m : WasmHasher σ) :
    ((wasmHashFinal L m).buf).take 16 = L.fin m.state := by
  show (listWrite m.buf 0 (L.fin m.state)).take 16 = L.fin m.state
  rw [← hfin16 m.state]
  exact take_listWrite_zero _ _

theorem wasmDigest_fst {σ : Type} (L : XXH3Lib σ)
    (hfin16 : ∀ s, (L.fin s).length = 16) (m : WasmHasher σ) :
    (wasmDigest L m).1 = L.fin m.state :=
  wasmFinal_buf_take16 L hfin16 m

theorem wasmDigest_snd_state {σ : Type} (L : XXH3Lib σ) (m : WasmHasher σ) :
    (wasmDigest L m).2.state = m.state := rfl

theorem readU64le_u64leBytes (lo hi : Nat) (hlo : lo < 2 ^ 32) (hhi : hi < 2 ^ 32)
    (rest : List Nat) :
    readU64le (u64leBytes lo hi ++ rest) = hi * 2 ^ 32 + lo := by
  simp only [u64leBytes, u32le, readU64le, readU32le, List.cons_append, List.nil_append,
    List.drop_succ_cons, List.drop_zero]
  omega

/-- Assembling `(seedHigh << 32) | seedLow` gives the same 64-bit value the WASM
glue reconstructs from the two little-endian halves. -/
theorem shl32_lor_eq (lo hi : Nat) (hlo : lo < 2 ^ 32) :
    (hi <<< 32) ||| lo = hi * 2 ^ 32 + lo := by
  apply Nat.eq_of_testBit_eq
  intro j
  rw [Nat.testBit_lor, Nat.testBit_shiftLeft,
    show hi * 2 ^ 32 + lo = 2 ^ 32 * hi + lo by ring,
    Nat.testBit_mul_pow_two_add hi hlo j]
  by_cases h : j < 32
  · simp [h, Nat.not_le.2 h]
  · have h32 : 32 ≤ j := Nat.le_of_not_lt h
    have : lo.testBit j = false :=
      Nat.testBit_lt_two_pow (lt_of_lt_of_le hlo (Nat.pow_le_pow_right (by norm_num) h32))
    simp [h, h32, this]

theorem wasmReset_state {σ : Type} (L : XXH3Lib σ) (m : WasmHasher σ)
    (hlo : m.seedLow < 2 ^ 32) (hhi : m.seedHigh < 2 ^ 32) :
    (wasmReset L m).state = L.init (m.seedHigh * 2 ^ 32 + m.seedLow) := by
  show L.init (readU64le (listWrite m.buf 0 (u64leBytes m.seedLow m.seedHigh)))
      = L.init (m.seedHigh * 2 ^ 32 + m.seedLow)
  rw [listWrite_zero, readU64le_u64leBytes _ _ hlo hhi]

theorem wasmReset_seeds {σ : Type} (L : XXH3Lib σ) (m : WasmHasher σ) :
    (wasmReset L m).seedLow = m.seedLow ∧ (wasmReset L m).seedHigh = m.seedHigh :=
  ⟨rfl, rfl⟩

theorem readU64le_u64leBytes_indep (lo hi : Nat) (rest : List Nat) :
    readU64le (u64leBytes lo hi ++ rest) = readU64le (u64leBytes lo hi) := by
  simp only [u64leBytes, u32le, readU64le, readU32le, List.cons_append, List.nil_append,
    List.drop_succ_cons, List.drop_zero]

/-- Observational equivalence of two portable hasher instances: same seed
halves and same streaming-state contents (the I/O buffer is scratch). -/
def obsEq {σ : Type} (m1 m2 : WasmHasher σ) : Prop :=
  m1.seedLow = m2.seedLow ∧ m1.seedHigh = m2.seedHigh ∧ m1.state = m2.state

theorem wasmStep_obs_congr {σ : Type} (L : XXH3Lib σ)
    (hfin16 : ∀ s, (L.fin s).length = 16)
    {m1 m2 : WasmHasher σ} (h : obsEq m1 m2) (op : HOp) :
    (wasmStep L m1 op).1 = (wasmStep L m2 op).1 ∧
      obsEq (wasmStep L m1 op).2 (wasmStep L m2 op).2 := by
  obtain ⟨hlo, hhi, hst⟩ := h
  cases op with
  | reset =>
    refine ⟨rfl, hlo, hhi, ?_⟩
    show (wasmReset L m1).state = (wasmReset L m2).state
    show L.init (readU64le (listWrite m1.buf 0 (u64leBytes m1.seedLow m1.seedHigh)))
        = L.init (readU64le (listWrite m2.buf 0 (u64leBytes m2.seedLow m2.seedHigh)))
    rw [listWrite_zero, listWrite_zero, readU64le_u64leBytes_indep,
      readU64le_u64leBytes_indep, hlo, hhi]
  | update data off len =>
    by_cases hg : off + len > data.length
    · simp only [wasmStep, wasmUpdate, if_pos hg]
      exact ⟨trivial, hlo, hhi, hst⟩
    · simp only [wasmStep, wasmUpdate, if_neg hg]
      refine ⟨trivial, foldl_feed_seedLow L _ m1 ▸ foldl_feed_seedLow L _ m2 ▸ hlo,
        foldl_feed_seedHigh L _ m1 ▸ foldl_feed_seedHigh L _ m2 ▸ hhi,
        foldl_feed_state_congr L _ m1 m2 hst⟩
  | digest =>
    refine ⟨?_, hlo, hhi, hst⟩
    show some (Except.ok (wasmDigest L m1).1) = some (Except.ok (wasmDigest L m2).1)
    rw [wasmDigest_fst L hfin16, wasmDigest_fst L hfin16, hst]
  | digestTo out off =>
    by_cases hg : off + 16 > out.length
    · simp only [wasmStep, wasmDigestTo, if_pos hg]
      exact ⟨trivial, hlo, hhi, hst⟩
    · simp only [wasmStep, wasmDigestTo, if_neg hg]
      refine ⟨?_, hlo, hhi, hst⟩
      show some (Except.ok (listWrite out off ((wasmHashFinal L m1).buf.take 16)))
          = some (Except.ok (listWrite out off ((wasmHashFinal L m2).buf.take 16)))
      rw [wasmFinal_buf_take16 L hfin16, wasmFinal_buf_take16 L hfin16, hst]

theorem wasmRun_obs_congr {σ : Type} (L : XXH3Lib σ)
    (hfin16 : ∀ s, (L.fin s).length = 16) (ops : List HOp) :
    ∀ {m1 m2 : WasmHasher σ}, obsEq m1 m2 →
      (wasmRun L m1 ops).1 = (wasmRun L m2 ops).1 := by
  induction ops with
  | nil => intro m1 m2 _; rfl
  | cons op rest ih =>
    intro m1 m2 h
    obtain ⟨hout, hnext⟩ := wasmStep_obs_congr L hfin16 h op
    simp only [wasmRun, hout, ih hnext]

/-- Claim C7: `digest` is idempotent and does not mutate the streaming
state, on both backends: two `digest` calls with no intervening `update`
return the same 16 bytes; the portable `digest` restores the state region
it saved; and prepending a `digest` to any operation sequence only
prepends its observation — every later `update`/`digest`/`digestTo`
observation is as if the earlier `digest` had not been called. -/
theorem claim_C7_digest_idempotent {σ : Type} (L : XXH3Lib σ)
    (hfin16 : ∀ s, (L.fin s).length = 16)
    (m : WasmHasher σ) (h : NativeHasher σ) (ops : List HOp) :
    (wasmDigest L m).1 = (wasmDigest L (wasmDigest L m).2).1 ∧
    (wasmDigest L m).2.state = m.state ∧
    (wasmRun L m (.digest :: ops)).1 = some (.ok (wasmDigest L m).1) :: (wasmRun L m ops).1 ∧
    (nativeRun L h (.digest :: ops)).1 = some (.ok (nativeDigest L h)) :: (nativeRun L h ops).1 := by
  refine ⟨?_, rfl, ?_, rfl⟩
  · rw [wasmDigest_fst L hfin16, wasmDigest_fst L hfin16, wasmDigest_snd_state]
  · show some (Except.ok (wasmDigest L m).1) :: (wasmRun L (wasmDigest L m).2 ops).1
        = some (Except.ok (wasmDigest L m).1) :: (wasmRun L m ops).1
    have hcong := wasmRun_obs_congr L hfin16 ops
      (show obsEq (wasmDigest L m).2 m from ⟨rfl, rfl, rfl⟩)
    rw [hcong]

/-! ### Backend equivalence (claim C9) -/

/-- Simulation relation between a portable instance and a native instance
constructed with the seed halves `(lo, hi)`: same stored seed halves, same
streaming-library state, and the native seed is the assembled 64-bit
word. -/
def simRel {σ : Type} (lo hi : Nat) (m : WasmHasher σ) (h : NativeHasher σ) : Prop :=
  m.seedLow = lo ∧ m.seedHigh = hi ∧ m.state = h.state ∧ h.seed = hi * 2 ^ 32 + lo

theorem simRel_step {σ : Type} (L : XXH3Lib σ)
    (hfin16 : ∀ s, (L.fin s).length = 16)
    (hcat : ∀ s a b, L.upd (L.upd s a) b = L.upd s (a ++ b))
    (hnil : ∀ s, L.upd s [] = s)
    {lo hi : Nat} (hlo32 : lo < 2 ^ 32) (hhi32 : hi < 2 ^ 32)
    {m : WasmHasher σ} {h : NativeHasher σ} (hR : simRel lo hi m h) (op : HOp) :
    (wasmStep L m op).1 = (nativeStep L h op).1 ∧
      simRel lo hi (wasmStep L m op).2 (nativeStep L h op).2 := by
  obtain ⟨hlo, hhi, hst, hseed⟩ := hR
  cases op with
  | reset =>
    refine ⟨rfl, hlo, hhi, ?_, hseed⟩
    show (wasmReset L m).state = (nativeReset L h).state
    show L.init (readU64le (listWrite m.buf 0 (u64leBytes m.seedLow m.seedHigh)))
        = L.init h.seed
    rw [listWrite_zero, hlo, hhi, readU64le_u64leBytes _ _ hlo32 hhi32, hseed]
  | update data off len =>
    by_cases hg : off + len > data.length
    · simp only [wasmStep, wasmUpdate, nativeStep, nativeUpdate, if_pos hg]
      exact ⟨trivial, hlo, hhi, hst, hseed⟩
    · simp only [wasmStep, wasmUpdate, nativeStep, nativeUpdate, if_neg hg]
      refine ⟨trivial, foldl_feed_seedLow L _ m ▸ hlo, foldl_feed_seedHigh L _ m ▸ hhi,
        ?_, hseed⟩
      show ((wasmChunks ((data.drop off).take len)).foldl (wasmFeedChunk L) m).state
          = L.upd h.state ((data.drop off).take len)
      rw [wasmChunks_foldl_state L hcat hnil, hst]
  | digest =>
    refine ⟨?_, hlo, hhi, hst, hseed⟩
    show some (Except.ok (wasmDigest L m).1) = some (Except.ok (nativeDigest L h))
    rw [wasmDigest_fst L hfin16, hst]
    rfl
  | digestTo out off =>
    by_cases hg : off + 16 > out.length
    · simp only [wasmStep, wasmDigestTo, nativeStep, nativeDigestTo, if_pos hg]
      exact ⟨trivial, hlo, hhi, hst, hseed⟩
    · simp only [wasmStep, wasmDigestTo, nativeStep, nativeDigestTo, if_neg hg]
      refine ⟨?_, hlo, hhi, hst, hseed⟩
      show some (Except.ok (listWrite out off ((wasmHashFinal L m).buf.take 16)))
          = some (Except.ok (listWrite out off (L.fin h.state)))
      rw [wasmFinal_buf_take16 L hfin16, hst]

theorem simRel_run {σ : Type} (L : XXH3Lib σ)
    (hfin16 : ∀ s, (L.fin s).length = 16)
    (hcat : ∀ s a b, L.upd (L.upd s a) b = L.upd s (a ++ b))
    (hnil : ∀ s, L.upd s [] = s)
    {lo hi : Nat} (hlo32 : lo < 2 ^ 32) (hhi32 : hi < 2 ^ 32) (ops : List HOp) :
    ∀ {m : WasmHasher σ} {h : NativeHasher σ}, simRel lo hi m h →
      (wasmRun L m ops).1 = (nativeRun L h ops).1 := by
  induction ops with
  | nil => intro m h _; rfl
  | cons op rest ih =>
    intro m h hR
    obtain ⟨hout, hnext⟩ := simRel_step L hfin16 hcat hnil hlo32 hhi32 hR op
    simp only [wasmRun, nativeRun, hout, ih hnext]

/-- Claim C9: for every 32-bit seed pair and every sequence of
`reset`/`update`/`digest`/`digestTo` operations, the portable (WASM)
backend and the native backend produce identical observations — the same
`Range` failures and byte-identical 16-byte digests and written output
buffers — given the streaming contract of the shared xxHash library
(`update` is a homomorphism on the byte stream, a zero-length `update` is
a no-op, and the canonical digest is 16 bytes). -/
theorem claim_C9_backend_equivalence {σ : Type} (L : XXH3Lib σ)
    (hfin16 : ∀ s, (L.fin s).length = 16)
    (hcat : ∀ s a b, L.upd (L.upd s a) b = L.upd s (a ++ b))
    (hnil : ∀ s, L.upd s [] = s)
    (seedLow seedHigh : Nat) (hlo32 : seedLow < 2 ^ 32) (hhi32 : seedHigh < 2 ^ 32)
    (ops : List HOp) :
    (wasmRun L (wasmInitInstance L seedLow seedHigh) ops).1
      = (nativeRun L (nativeNew L seedLow seedHigh) ops).1 := by
  apply simRel_run L hfin16 hcat hnil hlo32 hhi32
  refine ⟨rfl, rfl, ?_, shl32_lor_eq _ _ hlo32⟩
  show L.init (readU64le (listWrite (List.replicate WASM_BUF_SIZE 0) 0
      (u64leBytes seedLow seedHigh))) = L.init ((seedHigh <<< 32) ||| seedLow)
  rw [listWrite_zero, readU64le_u64leBytes _ _ hlo32 hhi32, shl32_lor_eq _ _ hlo32]

/-! ### `digestTo` frame properties (claim C10) -/

theorem listWrite_length (dst : List Nat) (off : Nat) (src : List Nat)
    (h : off + src.length ≤ dst.length) :
    (listWrite dst off src).length = dst.length := by
  simp only [listWrite, List.length_append, List.length_take, List.length_drop]
  omega

theorem take_length_of_le {dst : List Nat} {off : Nat} (h : off ≤ dst.length) :
    (dst.take off).length = off := by
  simp only [List.length_take]
  omega

theorem listWrite_getElem_before (dst : List Nat) (off : Nat) (src : List Nat)
    (h : off + src.length ≤ dst.length) (i : Nat) (hi : i < off) :
    (listWrite dst off src)[i]? = dst[i]? := by
  have htl : (dst.take off).length = off := take_length_of_le (by omega)
  rw [listWrite, List.getElem?_append_left (by simp [htl]; omega),
    List.getElem?_append_left (by rw [htl]; omega), List.getElem?_take_of_lt hi]

theorem listWrite_getElem_after (dst : List Nat) (off : Nat) (src : List Nat)
    (h : off + src.length ≤ dst.length) (i : Nat) (hi : off + src.length ≤ i) :
    (listWrite dst off src)[i]? = dst[i]? := by
  have htl : (dst.take off).length = off := take_length_of_le (by omega)
  rw [listWrite, List.getElem?_append_right (by simp [htl]; omega)]
  rw [List.length_append, htl]
  rw [List.getElem?_drop]
  congr 1
  omega

theorem listWrite_getElem_inside (dst : List Nat) (off : Nat) (src : List Nat)
    (h : off + src.length ≤ dst.length) (j : Nat) (hj : j < src.length) :
    (listWrite dst off src)[off + j]? = src[j]? := by
  have htl : (dst.take off).length = off := take_length_of_le (by omega)
  rw [listWrite, List.getElem?_append_left (by simp [htl]; omega),
    List.getElem?_append_right (by rw [htl]; omega)]
  rw [htl]
  congr 1
  omega

/-- Claim C10: with `offset + 16 ≤ out.length`, `digestTo` on either
backend succeeds and writes exactly the 16 digest bytes into
`[offset, offset+16)`, leaving every byte outside that range unchanged
(and the output length unchanged); the portable hasher's streaming state
and stored seed halves are unchanged by the call, and the native call
does not touch its hasher at all. -/
theorem claim_C10_digestTo_frame {σ : Type} (L : XXH3Lib σ)
    (hfin16 : ∀ s, (L.fin s).length = 16)
    (m : WasmHasher σ) (h : NativeHasher σ) (out : List Nat) (off : Nat)
    (hoff : off + 16 ≤ out.length) :
    ∃ res mres, wasmDigestTo L m out off = .ok (res, mres) ∧
      mres.state = m.state ∧ mres.seedLow = m.seedLow ∧ mres.seedHigh = m.seedHigh ∧
      res.length = out.length ∧
      (∀ i, i < off ∨ off + 16 ≤ i → res[i]? = out[i]?) ∧
      (∀ j, j < 16 → res[off + j]? = (L.fin m.state)[j]?) ∧
      ∃ nres, nativeDigestTo L h out off = .ok nres ∧
        nres.length = out.length ∧
        (∀ i, i < off ∨ off + 16 ≤ i → nres[i]? = out[i]?) ∧
        (∀ j, j < 16 → nres[off + j]? = (L.fin h.state)[j]?) := by
  have hng : ¬(off + 16 > out.length) := by omega
  have hw : off + (L.fin m.state).length ≤ out.length := by rw [hfin16]; omega
  have hn : off + (L.fin h.state).length ≤ out.length := by rw [hfin16]; omega
  refine ⟨listWrite out off (L.fin m.state),
    ⟨m.seedLow, m.seedHigh, m.state, listWrite m.buf 0 (L.fin m.state)⟩,
    ?_, rfl, rfl, rfl, ?_, ?_, ?_,
    listWrite out off (L.fin h.state), ?_, ?_, ?_, ?_⟩
  · simp only [wasmDigestTo, if_neg hng, wasmFinal_buf_take16 L hfin16]
    rfl
  · exact listWrite_length _ _ _ hw
  · intro i hi
    rcases hi with hi | hi
    · exact listWrite_getElem_before _ _ _ hw i hi
    · exact listWrite_getElem_after _ _ _ hw i (by rw [hfin16]; omega)
  · intro j hj
    exact listWrite_getElem_inside _ _ _ hw j (by rw [hfin16]; omega)
  · simp only [nativeDigestTo, if_neg hng]
  · exact listWrite_length _ _ _ hn
  · intro i hi
    rcases hi with hi | hi
    · exact listWrite_getElem_before _ _ _ hn i hi
    · exact listWrite_getElem_after _ _ _ hn i (by rw [hfin16]; omega)
  · intro j hj
    exact listWrite_getElem_inside _ _ _ hn j (by rw [hfin16]; omega)

/-! ## Static bulk-hash worker (`StaticHashFilesWorker`)

`Execute` builds the `PathIndex` of the paths buffer, hashes the files
(abstracted by the per-file hash assignment `hashFile`, since file
contents are external), and for `N = 0` resolves the modes from
`XXH3_128bits_withSeed(nullptr, 0, seed)`.  `OnOK` resolves the digest
copy (16 bytes), the output buffer, or an empty buffer when no output was
produced. -/

/-- Output mode — the `'d'`/`'f'`/`'a'` charcodes of the JS `outputMode`. -/
inductive BulkMode where
  | digestOnly
  | filesOnly
  | all

/-- Modelled from the spec: the one-shot `XXH3_128bits_withSeed` followed
by `XXH128_canonicalFromHash` — a run of the streaming library over the
whole input (the library's documented one-shot/streaming agreement). -/
def xxh3One {σ : Type} (L : XXH3Lib σ) (data : List Nat) (seed : Nat) : List Nat :=
  L.fin (L.upd (L.init seed) data)

/-- The bytes the promise of the static `hashFilesBulk` resolves with:
`StaticHashFilesWorker::Execute` + `OnOK` for a given paths buffer, seed
and per-file hash assignment. -/
def staticHashFilesResolve {σ : Type} (L : XXH3Lib σ) (hashFile : List Nat → List Nat)
    (mode : BulkMode) (pathsBuf : List Nat) (seed : Nat) : List Nat :=
  let paths := pathIndex pathsBuf
  if paths.length > 0 then
    let fileHashes := (paths.map hashFile).flatten
    match mode with
    | .all => xxh3One L fileHashes seed ++ fileHashes
    | .filesOnly => fileHashes
    | .digestOnly => xxh3One L fileHashes seed
  else
    match mode with
    | .digestOnly => xxh3One L [] seed
    | .filesOnly => []
    | .all => xxh3One L [] seed

/-- The digest `FileHashCache.validate` returns for an empty resolved file
list: `new XXHash128(seedLow, seedHigh).digest()` on the native backend. -/
def validateEmptyDigest {σ : Type} (L : XXH3Lib σ) (seedLow seedHigh : Nat) : List Nat :=
  nativeDigest L (nativeNew L seedLow seedHigh)

/-- Claim C6: with an empty file list both the bulk-hash facade and
`FileHashCache.validate` produce the aggregate
`XXH3-128_withSeed(empty, seed)` — a value that is non-zero whenever the
hash of the empty input is (as the known-value table shows it is) — and
the facade resolves 16 bytes in `digest` mode, 0 bytes in `files` mode,
and just the 16-byte aggregate in `all` mode. -/
theorem claim_C6_empty_file_list {σ : Type} (L : XXH3Lib σ)
    (hashFile : List Nat → List Nat) (seedLow seedHigh : Nat)
    (hfin16 : ∀ s, (L.fin s).length = 16)
    (hnil : ∀ s, L.upd s [] = s) :
    staticHashFilesResolve L hashFile .digestOnly (encodeFilePaths [])
        ((seedHigh <<< 32) ||| seedLow) = xxh3One L [] ((seedHigh <<< 32) ||| seedLow) ∧
    (staticHashFilesResolve L hashFile .digestOnly (encodeFilePaths [])
        ((seedHigh <<< 32) ||| seedLow)).length = 16 ∧
    staticHashFilesResolve L hashFile .filesOnly (encodeFilePaths [])
        ((seedHigh <<< 32) ||| seedLow) = [] ∧
    staticHashFilesResolve L hashFile .all (encodeFilePaths [])
        ((seedHigh <<< 32) ||| seedLow) = xxh3One L [] ((seedHigh <<< 32) ||| seedLow) ∧
    validateEmptyDigest L seedLow seedHigh = xxh3One L [] ((seedHigh <<< 32) ||| seedLow) ∧
    (xxh3One L [] ((seedHigh <<< 32) ||| seedLow) ≠ List.replicate 16 0 →
      staticHashFilesResolve L hashFile .digestOnly (encodeFilePaths [])
        ((seedHigh <<< 32) ||| seedLow) ≠ List.replicate 16 0) := by
  have henc : encodeFilePaths ([] : List (List Nat)) = [] := rfl
  have hpi : pathIndex (encodeFilePaths ([] : List (List Nat))) = [] := by
    rw [henc]; rfl
  refine ⟨?_, ?_, ?_, ?_, ?_, ?_⟩
  · simp [staticHashFilesResolve, hpi]
  · simp [staticHashFilesResolve, hpi, xxh3One, hfin16]
  · simp [staticHashFilesResolve, hpi]
  · simp [staticHashFilesResolve, hpi]
  · show L.fin (L.init ((seedHigh <<< 32) ||| seedLow))
        = L.fin (L.upd (L.init ((seedHigh <<< 32) ||| seedLow)) [])
    rw [hnil]
  · intro hne
    simpa [staticHashFilesResolve, hpi] using hne

/-! ## Concrete instances for the witnesses

A small concrete model of the library interface: the state is the list of
absorbed bytes, `fin` summarises it into 16 bytes.  It satisfies the
streaming contract, so the theorems with library-contract hypotheses can
be exercised on it. -/

/-- A concrete byte-accumulator instance of the library interface. -/
def witnessLib : XXH3Lib (List Nat) :=
  ⟨fun _ => [], fun s a => s ++ a, fun s => List.replicate 16 (s.sum % 256), fun _ => []⟩

/-- A concrete portable hasher instance. -/
def witnessWasm : WasmHasher (List Nat) :=
  ⟨1, 2, [5], List.replicate 32 0⟩

/-- A concrete native hasher instance. -/
def witnessNative : NativeHasher (List Nat) :=
  ⟨0, [5]⟩

/-- The cache file serialized at the C3 witness instance: one path `[97]`
with a successful stat `⟨1, 2, 3⟩`, hash `5 × 16`, version 1, digest `9 × 16`,
fingerprint `7 × 16`, no raw or gzip blobs, with the f64 encoding that maps
every number to eight `0` bytes and NaN to eight `1` bytes. -/
def c3WitnessBuf : List Nat :=
  [70, 83, 72, 6, 1, 0, 0, 0, 1, 0, 0, 0] ++ List.replicate 16 9 ++
    List.replicate 16 7 ++ [2, 0, 0, 0] ++ List.replicate 24 0 ++
    List.replicate 8 1 ++ List.replicate 8 0 ++ List.replicate 16 5 ++ [97, 0]

theorem claim_C3_entry_count_invariant_witness :
    serializeCacheChecked (fun _ => List.replicate 8 0) (List.replicate 8 1)
        [[97]] (mkValidEntries [some ⟨1, 2, 3⟩] [List.replicate 16 5])
        1 (List.replicate 16 7) (List.replicate 16 9) [] [] 0 0 0
      = .ok c3WitnessBuf ∧
    readU32le (c3WitnessBuf.drop 8) = 1 ∧
    readU32le (c3WitnessBuf.drop 44) = 2 ∧
    (c3WitnessBuf.drop 104).take 2 = serializePaths [[97]] ∧
    nulSegmentCount ((c3WitnessBuf.drop 104).take 2) = 1 ∧
    serializeCacheChecked (fun _ => List.replicate 8 0) (List.replicate 8 1)
        [[]] (mkValidEntries [none] [List.replicate 16 5])
        1 (List.replicate 16 7) (List.replicate 16 9) [] [] 0 0 0
      = .error .typeError := by
  have ha := claim_C3_entry_count_invariant (fun _ => List.replicate 8 0)
    (List.replicate 8 1) [[97]] [some ⟨1, 2, 3⟩] [List.replicate 16 5] 1
    (List.replicate 16 7) (List.replicate 16 9) [] [] 0 0 0
    (fun _ => rfl) rfl
    (by intro h hh; rw [List.mem_singleton] at hh; subst hh; rfl)
    rfl rfl rfl rfl (by decide) (by decide)
    (by
      intro i p s hip hst
      cases i with
      | zero =>
        simp only [List.getElem?_cons_zero, Option.some.injEq] at hip
        subst hip
        decide
      | succ n => simp at hip)
  have hb := claim_C3_entry_count_invariant (fun _ => List.replicate 8 0)
    (List.replicate 8 1) [[]] [none] [List.replicate 16 5] 1
    (List.replicate 16 7) (List.replicate 16 9) [] [] 0 0 0
    (fun _ => rfl) rfl
    (by intro h hh; rw [List.mem_singleton] at hh; subst hh; rfl)
    rfl rfl rfl rfl (by decide) (by decide)
    (by
      intro i p s hip hst
      cases i with
      | zero => simp at hst
      | succ n => simp at hip)
  have hok := ha.1 c3WitnessBuf rfl
  exact ⟨rfl, hok.1, hok.2.1, hok.2.2.1, hok.2.2.2, hb.2 0 rfl⟩

theorem claim_C8_thread_plan_witness :
    hashFilesRunPlan 8 0 3 100 = specThreadPlan (max 8 2) 0 3 100 ∧
      1 ≤ (hashFilesRunPlan 8 0 3 100).1 :=
  ⟨(claim_C8_thread_plan 8 0 3 100).2 (by decide), (claim_C8_thread_plan 8 0 3 100).1⟩

theorem claim_C7_digest_idempotent_witness :
    (wasmDigest witnessLib witnessWasm).1
        = (wasmDigest witnessLib (wasmDigest witnessLib witnessWasm).2).1 ∧
      (wasmDigest witnessLib witnessWasm).2.state = witnessWasm.state ∧
      (wasmRun witnessLib witnessWasm (.digest :: [.digest])).1
        = some (.ok (wasmDigest witnessLib witnessWasm).1)
            :: (wasmRun witnessLib witnessWasm [.digest]).1 ∧
      (nativeRun witnessLib witnessNative (.digest :: [.digest])).1
        = some (.ok (nativeDigest witnessLib witnessNative))
            :: (nativeRun witnessLib witnessNative [.digest]).1 :=
  claim_C7_digest_idempotent witnessLib (fun _ => rfl) witnessWasm witnessNative [.digest]

theorem claim_C9_backend_equivalence_witness :
    (wasmRun witnessLib (wasmInitInstance witnessLib 1 2)
        [.update [7, 9] 0 2, .digest]).1
      = (nativeRun witnessLib (nativeNew witnessLib 1 2)
        [.update [7, 9] 0 2, .digest]).1 :=
  claim_C9_backend_equivalence witnessLib (fun _ => rfl)
    (fun s a b => List.append_assoc s a b) (fun s => List.append_nil s)
    1 2 (by decide) (by decide) [.update [7, 9] 0 2, .digest]

theorem claim_C10_digestTo_frame_witness :
    ∃ res mres,
      wasmDigestTo witnessLib witnessWasm (List.replicate 20 9) 2 = .ok (res, mres) ∧
      mres.state = witnessWasm.state ∧ mres.seedLow = witnessWasm.seedLow ∧
      mres.seedHigh = witnessWasm.seedHigh ∧
      res.length = (List.replicate 20 9 : List Nat).length ∧
      (∀ i, i < 2 ∨ 2 + 16 ≤ i → res[i]? = (List.replicate 20 9 : List Nat)[i]?) ∧
      (∀ j, j < 16 → res[2 + j]? = (witnessLib.fin witnessWasm.state)[j]?) ∧
      ∃ nres,
        nativeDigestTo witnessLib witnessNative (List.replicate 20 9) 2 = .ok nres ∧
        nres.length = (List.replicate 20 9 : List Nat).length ∧
        (∀ i, i < 2 ∨ 2 + 16 ≤ i → nres[i]? = (List.replicate 20 9 : List Nat)[i]?) ∧
        (∀ j, j < 16 → nres[2 + j]? = (witnessLib.fin witnessNative.state)[j]?) :=
  claim_C10_digestTo_frame witnessLib (fun _ => rfl) witnessWasm witnessNative
    (List.replicate 20 9) 2 (by decide)

theorem claim_C6_empty_file_list_witness :
    staticHashFilesResolve witnessLib (fun _ => List.replicate 16 0) .digestOnly
        (encodeFilePaths []) ((4 <<< 32) ||| 3)
      = xxh3One witnessLib [] ((4 <<< 32) ||| 3) ∧
    (staticHashFilesResolve witnessLib (fun _ => List.replicate 16 0) .digestOnly
        (encodeFilePaths []) ((4 <<< 32) ||| 3)).length = 16 ∧
    staticHashFilesResolve witnessLib (fun _ => List.replicate 16 0) .filesOnly
        (encodeFilePaths []) ((4 <<< 32) ||| 3) = [] ∧
    staticHashFilesResolve witnessLib (fun _ => List.replicate 16 0) .all
        (encodeFilePaths []) ((4 <<< 32) ||| 3)
      = xxh3One witnessLib [] ((4 <<< 32) ||| 3) ∧
    validateEmptyDigest witnessLib 3 4 = xxh3One witnessLib [] ((4 <<< 32) ||| 3) ∧
    (xxh3One witnessLib [] ((4 <<< 32) ||| 3) ≠ List.replicate 16 0 →
      staticHashFilesResolve witnessLib (fun _ => List.replicate 16 0) .digestOnly
        (encodeFilePaths []) ((4 <<< 32) ||| 3) ≠ List.replicate 16 0) :=
  claim_C6_empty_file_list witnessLib (fun _ => List.replicate 16 0) 3 4
    (fun _ => rfl) (fun s => List.append_nil s)

end FastFsHash
